import Mathlib

/-!
Verification development for the Danbooru scraper engine (`scraper.py`,
class `DanbooruScraper`).  The engine is shallowly embedded: the mutable
object state becomes an explicit `ScrapeState` value, the HTTP transport
becomes an oracle parameter, and the observable side effects of one run
(upstream fetches, sink appends, state saves) are recorded in an event
trace.  Wall-clock pacing (`time.sleep`) and logging are effect-free from
the engine's point of view and are not modelled.
-/

/-- A post as the engine sees it: the integer `id` field it inspects, plus
the rest of the record, which passes through opaquely to the sink (the
engine reads no other field). -/
structure Post where
  id : Nat
  body : String
deriving Repr, DecidableEq

/-- The persisted progress state of `DanbooruScraper`.  `_load_state`
creates it with defaults `last_processed_id = 0`, `total_posts_scraped = 0`,
`current_batch_start = 1`.  The `last_update` wall-clock stamp written by
`_save_state` is a time-source effect and is kept outside this record (it
is passed separately where it matters, see `dumpState`). -/
structure ScrapeState where
  last_processed_id : Nat
  total_posts_scraped : Nat
  current_batch_start : Nat
deriving Repr, DecidableEq

/-- The default state built by `_load_state` when no state file exists. -/
def initialState : ScrapeState := ⟨0, 0, 1⟩

/-- Observable events of one engine run, in program order: a call of
`_fetch_posts_by_id_range` (with its arguments), a call of
`_append_posts_to_file` (with the records handed to the sink), and a call
of `_save_state` (with the state value written to disk). -/
inductive Ev where
  | fetch (minId maxId page : Nat)
  | append (posts : List Post)
  | save (st : ScrapeState)
deriving Repr, DecidableEq

/-- The transport/decode layer underneath `_fetch_posts_by_id_range`, as a
typed outcome: `success` is a 2xx response whose body decoded to a list of
posts; `transportFailure` is `requests.exceptions.RequestException` raised
by `requests.get` (network error or timeout); `httpStatusFailure` is the
`HTTPError` raised by `response.raise_for_status()` on a non-2xx status;
`decodeFailure` is `json.JSONDecodeError` from `response.json()`. -/
inductive FetchOutcome where
  | success (posts : List Post)
  | transportFailure
  | httpStatusFailure (code : Nat)
  | decodeFailure
deriving Repr, DecidableEq

/-- Whether an outcome is one of the three failure kinds. -/
def FetchOutcome.isFailure : FetchOutcome → Bool
  | .success _ => false
  | .transportFailure => true
  | .httpStatusFailure _ => true
  | .decodeFailure => true

/-- `DanbooruScraper._fetch_posts_by_id_range` (scraper.py lines 100-137):
the request for page `page` of ID range `id:minId..maxId` has outcome
`net minId maxId page`; every `except` arm logs and returns `[]`, so all
three failure kinds are absorbed to the empty list. -/
def fetchPostsByIdRange (net : Nat → Nat → Nat → FetchOutcome)
    (minId maxId page : Nat) : List Post :=
  match net minId maxId page with
  | .success posts => posts
  | .transportFailure => []
  | .httpStatusFailure _ => []
  | .decodeFailure => []

/-- The fetch capability as the scanner sees it: `_fetch_posts_by_id_range`
already absorbs every failure into `[]` (see `fetchPostsByIdRange`), so
from the scanner's side a fetch is a total function from
`(minId, maxId, page)` to a list of posts. -/
abbrev Oracle := Nat → Nat → Nat → List Post

/-- `max_pages = 1000` in `_scrape_id_range` (scraper.py line 165), the hard
ceiling on pages fetched per ID window. -/
def maxPages : Nat := 1000

/-- `max(post.id for post in posts)` over a (nonempty, in the code path
where it is evaluated) list, as a fold; for lists of naturals the fold from
`0` agrees with Python's `max`. -/
def listMaxId (posts : List Post) : Nat :=
  posts.foldl (fun m p => Nat.max m p.id) 0

/-- Lines 183-185 of scraper.py: raise `last_processed_id` to the largest
id on the page if that is larger; the rest of the state is untouched. -/
def updateLast (st : ScrapeState) (posts : List Post) : ScrapeState :=
  if listMaxId posts > st.last_processed_id then
    { st with last_processed_id := listMaxId posts }
  else st

/-- The state mutation lines 179-185 of scraper.py perform for one
non-empty page: add the page's length to `total_posts_scraped`, then raise
`last_processed_id`. -/
def pageStep (st : ScrapeState) (posts : List Post) : ScrapeState :=
  updateLast
    { st with total_posts_scraped := st.total_posts_scraped + posts.length }
    posts

/-- Result of one `_scrape_id_range` invocation: the state object after the
call, the function's return value (posts scraped in this range), and the
event trace of the call. -/
structure RangeResult where
  state : ScrapeState
  scraped : Nat
  trace : List Ev
deriving Repr, DecidableEq

/-- `DanbooruScraper._scrape_id_range` (scraper.py lines 152-205), the
pagination loop over one window `[minId, maxId]`.  The loop `while page <=
max_pages` is carried by `pagesLeft = max_pages - page + 1`, which counts
the iterations the guard still allows, so `pagesLeft = 0` is exactly the
guard failing.  Each iteration: fetch the page; if empty, break; else
append the page to the sink, add its length to `total_posts_scraped`,
raise `last_processed_id`, save state, and break if the page was short
(fewer than `posts_per_page` records), else move to the next page. -/
def scrapeRangeGo (f : Oracle) (pps minId maxId : Nat) (st : ScrapeState)
    (page : Nat) : Nat → RangeResult
  | 0 => ⟨st, 0, []⟩
  | pagesLeft + 1 =>
    let posts := f minId maxId page
    if posts = [] then ⟨st, 0, [Ev.fetch minId maxId page]⟩
    else
      let st1 := pageStep st posts
      if posts.length < pps then
        ⟨st1, posts.length,
          [Ev.fetch minId maxId page, Ev.append posts, Ev.save st1]⟩
      else
        let r := scrapeRangeGo f pps minId maxId st1 (page + 1) pagesLeft
        ⟨r.state, posts.length + r.scraped,
          Ev.fetch minId maxId page :: Ev.append posts :: Ev.save st1 :: r.trace⟩

/-- `_scrape_id_range` starts at `page = 1` with the full page budget. -/
def scrapeRange (f : Oracle) (pps minId maxId : Nat) (st : ScrapeState) :
    RangeResult :=
  scrapeRangeGo f pps minId maxId st 1 maxPages

/-- Number of `_fetch_posts_by_id_range` calls recorded in a trace. -/
def countFetches (tr : List Ev) : Nat :=
  (tr.filter fun e => match e with
    | Ev.fetch _ _ _ => true
    | _ => false).length

/-- Number of records handed to the sink in a trace. -/
def appendedCount (tr : List Ev) : Nat :=
  (tr.map fun e => match e with
    | Ev.append ps => ps.length
    | _ => 0).sum

/-- The `current_batch_start` values of the states saved in a trace, in
save order. -/
def saveCbsList (tr : List Ev) : List Nat :=
  tr.filterMap fun e => match e with
    | Ev.save s => some s.current_batch_start
    | _ => none

/-- Result of one `scrape_all` run: the state after the run, the ID windows
`(current_min_id, current_max_id)` processed in order, and the run's event
trace. -/
structure RunResult where
  state : ScrapeState
  windows : List (Nat × Nat)
  trace : List Ev
deriving Repr, DecidableEq

/-- The batch loop of `DanbooruScraper.scrape_all` (scraper.py lines
225-246): while `cur ≤ maxId`, process the window
`[cur, min (cur + b - 1) maxId]` with the range scanner, then set
`current_batch_start` to one past the window end, save, and continue from
there.  The loop has no intrinsic bound, so it is carried by a fuel
counter; the wrapper `scrapeAll` supplies `maxId + 1 - cur` units, which
is enough for every positive batch size `b` because each iteration
advances `cur` by at least one (for `b = 0` the Python loop never
terminates, and no claim concerns that case). -/
def scrapeLoopGo (f : Oracle) (pps b maxId : Nat) :
    Nat → ScrapeState → Nat → RunResult
  | _, st, 0 => ⟨st, [], []⟩
  | cur, st, fuel + 1 =>
    if cur ≤ maxId then
      let cmax := min (cur + b - 1) maxId
      let r := scrapeRange f pps cur cmax st
      let st1 := { r.state with current_batch_start := cmax + 1 }
      let rest := scrapeLoopGo f pps b maxId (cmax + 1) st1 fuel
      ⟨rest.state, (cur, cmax) :: rest.windows,
        r.trace ++ Ev.save st1 :: rest.trace⟩
    else ⟨st, [], []⟩

/-- `DanbooruScraper.scrape_all` (scraper.py lines 207-252): ask the
upstream for the highest post id (`none` models the probe failing, in
which case the run aborts having mutated nothing); otherwise run the batch
loop from `current_batch_start`. -/
def scrapeAll (f : Oracle) (pps b : Nat) (highest : Option Nat)
    (st : ScrapeState) : RunResult :=
  match highest with
  | none => ⟨st, [], []⟩
  | some maxId =>
    scrapeLoopGo f pps b maxId st.current_batch_start st
      (maxId + 1 - st.current_batch_start)

/-- A sequence of `scrape_all` runs over the same persisted state, each run
with its own fetch oracle and its own upstream highest-id answer. -/
def runSeq (pps b : Nat) : ScrapeState → List (Oracle × Option Nat) → ScrapeState
  | st, [] => st
  | st, (f, h) :: rs => runSeq pps b (scrapeAll f pps b h st).state rs

/-- `DanbooruScraper._append_posts_to_file` (scraper.py lines 139-150): the
output file is a sequence of lines, one JSON-serialized record per line
(`json.dumps(post) + "\n"`; `json.dumps` emits no raw newline); the file
is opened in append mode, so the call appends the records, in input
order, after the existing lines.  A file is modelled as the list of the
records its lines hold. -/
def appendPostsToFile (file : List Post) (posts : List Post) : List Post :=
  file ++ posts

/-- A sequence of successful `_append_posts_to_file` calls. -/
def appendAll (file : List Post) (batches : List (List Post)) : List Post :=
  batches.foldl appendPostsToFile file

/-- The lines of a file are in non-decreasing `id` order. -/
def idsNondecreasing (l : List Post) : Prop :=
  List.Chain' (fun a b => a.id ≤ b.id) l

/-- The exact text `json.dump(state, f, indent=2)` writes in `_save_state`
(scraper.py lines 73-80) for a state whose `last_update` field (stamped
just before the dump) holds `lastUpdate`: keys in the insertion order of
`_load_state`'s default dict, two-space indentation. -/
def dumpState (st : ScrapeState) (lastUpdate : String) : String :=
  "\x7b\n  \"last_processed_id\": " ++ toString st.last_processed_id ++
  ",\n  \"total_posts_scraped\": " ++ toString st.total_posts_scraped ++
  ",\n  \"last_update\": \"" ++ lastUpdate ++
  "\",\n  \"current_batch_start\": " ++ toString st.current_batch_start ++
  "\n\x7d"

/-- The file contents a reader can observe while `_save_state` runs, as
character lists: `_save_state` opens the state file with mode `"w"`, which
truncates it in place, and then streams the JSON text into it, so the
observable contents are the old contents (before `open`) and every prefix
of the new text (the empty prefix being the just-truncated file), with no
rename-into-place step. -/
def saveFileContents (old : ScrapeState) (oldUpdate : String)
    (st : ScrapeState) (lastUpdate : String) : List (List Char) :=
  (dumpState old oldUpdate).data ::
    (List.range ((dumpState st lastUpdate).data.length + 1)).map
      (fun k => (dumpState st lastUpdate).data.take k)

/-- `_save_state` is atomic from a reader's perspective if every observable
content of the state file during the save is either the old state's text
or the new state's complete text. -/
def atomicSave (old : ScrapeState) (oldUpdate : String)
    (st : ScrapeState) (lastUpdate : String) : Prop :=
  ∀ c ∈ saveFileContents old oldUpdate st lastUpdate,
    c = (dumpState old oldUpdate).data ∨ c = (dumpState st lastUpdate).data

/-! ### Basic lemmas about the range scanner -/

lemma updateLast_total (st : ScrapeState) (ps : List Post) :
    (updateLast st ps).total_posts_scraped = st.total_posts_scraped := by
  unfold updateLast
  split <;> rfl

lemma updateLast_cbs (st : ScrapeState) (ps : List Post) :
    (updateLast st ps).current_batch_start = st.current_batch_start := by
  unfold updateLast
  split <;> rfl

lemma pageStep_total (st : ScrapeState) (ps : List Post) :
    (pageStep st ps).total_posts_scraped = st.total_posts_scraped + ps.length := by
  unfold pageStep
  rw [updateLast_total]

lemma pageStep_cbs (st : ScrapeState) (ps : List Post) :
    (pageStep st ps).current_batch_start = st.current_batch_start := by
  unfold pageStep
  rw [updateLast_cbs]

lemma countFetches_nil : countFetches [] = 0 := rfl

lemma countFetches_cons (e : Ev) (tr : List Ev) :
    countFetches (e :: tr) =
      (match e with | Ev.fetch _ _ _ => 1 | _ => 0) + countFetches tr := by
  cases e <;> simp [countFetches, List.filter] <;> omega

lemma appendedCount_cons (e : Ev) (tr : List Ev) :
    appendedCount (e :: tr) =
      (match e with | Ev.append ps => ps.length | _ => 0) + appendedCount tr := by
  cases e <;> simp [appendedCount]

lemma scrapeRangeGo_empty (f : Oracle) (pps minId maxId : Nat)
    (st : ScrapeState) (page pl : Nat) (h : f minId maxId page = []) :
    scrapeRangeGo f pps minId maxId st page (pl + 1) =
      ⟨st, 0, [Ev.fetch minId maxId page]⟩ := by
  simp [scrapeRangeGo, h]

lemma scrapeRangeGo_short (f : Oracle) (pps minId maxId : Nat)
    (st : ScrapeState) (page pl : Nat) (hne : f minId maxId page ≠ [])
    (hlt : (f minId maxId page).length < pps) :
    scrapeRangeGo f pps minId maxId st page (pl + 1) =
      ⟨pageStep st (f minId maxId page), (f minId maxId page).length,
        [Ev.fetch minId maxId page, Ev.append (f minId maxId page),
          Ev.save (pageStep st (f minId maxId page))]⟩ := by
  simp [scrapeRangeGo, hne, hlt]

lemma scrapeRangeGo_long (f : Oracle) (pps minId maxId : Nat)
    (st : ScrapeState) (page pl : Nat) (hne : f minId maxId page ≠ [])
    (hge : ¬ (f minId maxId page).length < pps) :
    scrapeRangeGo f pps minId maxId st page (pl + 1) =
      ⟨(scrapeRangeGo f pps minId maxId (pageStep st (f minId maxId page))
          (page + 1) pl).state,
        (f minId maxId page).length +
          (scrapeRangeGo f pps minId maxId (pageStep st (f minId maxId page))
            (page + 1) pl).scraped,
        Ev.fetch minId maxId page :: Ev.append (f minId maxId page) ::
          Ev.save (pageStep st (f minId maxId page)) ::
          (scrapeRangeGo f pps minId maxId (pageStep st (f minId maxId page))
            (page + 1) pl).trace⟩ := by
  simp [scrapeRangeGo, hne, hge]

lemma scrapeRangeGo_fetches_le (f : Oracle) (pps minId maxId : Nat) :
    ∀ (pl : Nat) (st : ScrapeState) (page : Nat),
      countFetches (scrapeRangeGo f pps minId maxId st page pl).trace ≤ pl := by
  intro pl
  induction pl with
  | zero => intro st page; simp [scrapeRangeGo, countFetches]
  | succ pl ih =>
    intro st page
    by_cases hp : f minId maxId page = []
    · rw [scrapeRangeGo_empty f pps minId maxId st page pl hp]
      simp [countFetches, List.filter]
    · by_cases hs : (f minId maxId page).length < pps
      · rw [scrapeRangeGo_short f pps minId maxId st page pl hp hs]
        simp [countFetches, List.filter]
      · rw [scrapeRangeGo_long f pps minId maxId st page pl hp hs]
        simp only [countFetches_cons]
        have := ih (pageStep st (f minId maxId page)) (page + 1)
        omega

lemma scrapeRangeGo_cbs (f : Oracle) (pps minId maxId : Nat) :
    ∀ (pl : Nat) (st : ScrapeState) (page : Nat),
      (scrapeRangeGo f pps minId maxId st page pl).state.current_batch_start =
        st.current_batch_start := by
  intro pl
  induction pl with
  | zero => intro st page; simp [scrapeRangeGo]
  | succ pl ih =>
    intro st page
    by_cases hp : f minId maxId page = []
    · rw [scrapeRangeGo_empty f pps minId maxId st page pl hp]
    · by_cases hs : (f minId maxId page).length < pps
      · rw [scrapeRangeGo_short f pps minId maxId st page pl hp hs]
        exact pageStep_cbs st (f minId maxId page)
      · rw [scrapeRangeGo_long f pps minId maxId st page pl hp hs]
        rw [show (⟨(scrapeRangeGo f pps minId maxId (pageStep st (f minId maxId page))
          (page + 1) pl).state,
          (f minId maxId page).length +
            (scrapeRangeGo f pps minId maxId (pageStep st (f minId maxId page))
              (page + 1) pl).scraped,
          Ev.fetch minId maxId page :: Ev.append (f minId maxId page) ::
            Ev.save (pageStep st (f minId maxId page)) ::
            (scrapeRangeGo f pps minId maxId (pageStep st (f minId maxId page))
              (page + 1) pl).trace⟩ : RangeResult).state =
          (scrapeRangeGo f pps minId maxId (pageStep st (f minId maxId page))
            (page + 1) pl).state from rfl]
        rw [ih (pageStep st (f minId maxId page)) (page + 1)]
        exact pageStep_cbs st (f minId maxId page)

lemma scrapeRangeGo_saves_cbs (f : Oracle) (pps minId maxId : Nat) :
    ∀ (pl : Nat) (st : ScrapeState) (page : Nat),
      ∀ x ∈ saveCbsList (scrapeRangeGo f pps minId maxId st page pl).trace,
        x = st.current_batch_start := by
  intro pl
  induction pl with
  | zero => intro st page; simp [scrapeRangeGo, saveCbsList]
  | succ pl ih =>
    intro st page
    by_cases hp : f minId maxId page = []
    · rw [scrapeRangeGo_empty f pps minId maxId st page pl hp]
      simp [saveCbsList]
    · by_cases hs : (f minId maxId page).length < pps
      · rw [scrapeRangeGo_short f pps minId maxId st page pl hp hs]
        simp [saveCbsList, pageStep_cbs]
      · rw [scrapeRangeGo_long f pps minId maxId st page pl hp hs]
        intro x hx
        simp only [saveCbsList, List.filterMap_cons] at hx
        simp only [List.mem_cons] at hx
        rcases hx with h1 | hx
        · rw [h1, pageStep_cbs]
        · have := ih (pageStep st (f minId maxId page)) (page + 1) x hx
          rw [this, pageStep_cbs]

/-! ### Claim theorems about the fetcher and the scanner -/

/-- C4: for every ID range, page and failure kind (transport/timeout,
non-2xx status, malformed body), `_fetch_posts_by_id_range` does not
propagate the failure: it returns `[]`, exactly as if the upstream had
successfully returned zero records. -/
theorem fetch_failures_absorbed (net : Nat → Nat → Nat → FetchOutcome)
    (minId maxId page : Nat)
    (h : (net minId maxId page).isFailure = true) :
    fetchPostsByIdRange net minId maxId page = [] ∧
    fetchPostsByIdRange net minId maxId page =
      fetchPostsByIdRange (fun _ _ _ => FetchOutcome.success []) minId maxId page := by
  cases hn : net minId maxId page <;>
    simp [fetchPostsByIdRange, hn, FetchOutcome.isFailure] at h ⊢

theorem fetch_failures_absorbed_witness :
    ((fun _ _ _ => FetchOutcome.transportFailure : Nat → Nat → Nat → FetchOutcome)
        1 100 1).isFailure = true ∧
    fetchPostsByIdRange (fun _ _ _ => FetchOutcome.transportFailure) 1 100 1 = [] :=
  ⟨by decide,
    (fetch_failures_absorbed (fun _ _ _ => FetchOutcome.transportFailure) 1 100 1
      (by decide)).1⟩

/-- C6: a window whose first fetch returns zero records produces no sink
writes and no state saves; the scanner returns `0` and the progress state
(in particular `last_processed_id`) is exactly the state it was given. -/
theorem empty_window_no_effect (f : Oracle) (pps minId maxId : Nat)
    (st : ScrapeState) (h : f minId maxId 1 = []) :
    scrapeRange f pps minId maxId st = ⟨st, 0, [Ev.fetch minId maxId 1]⟩ :=
  scrapeRangeGo_empty f pps minId maxId st 1 999 h

theorem empty_window_no_effect_witness :
    ((fun _ _ _ => [] : Oracle) 5 40 1 = []) ∧
    scrapeRange (fun _ _ _ => []) 200 5 40 initialState =
      ⟨initialState, 0, [Ev.fetch 5 40 1]⟩ :=
  ⟨rfl, empty_window_no_effect (fun _ _ _ => []) 200 5 40 initialState rfl⟩

/-- C9: for every window and every behaviour of the fetch capability the
scanner's pagination loop stops after at most the hard per-window page
ceiling (`max_pages = 1000`) of fetches. -/
theorem scanner_page_ceiling (f : Oracle) (pps minId maxId : Nat)
    (st : ScrapeState) :
    countFetches (scrapeRange f pps minId maxId st).trace ≤ 1000 :=
  scrapeRangeGo_fetches_le f pps minId maxId maxPages st 1

/-- C1: `_save_state` is not atomic from a reader's perspective: it opens
the state file with mode `"w"`, truncating it in place, and then streams
the JSON text, so a reader sees the truncated (empty) file, which is
neither the old state's text nor the new state's text.  Shown here for a
save of the default state over a previously saved default state. -/
theorem saveState_not_atomic :
    ¬ atomicSave initialState "2024-01-01T00:00:00" initialState
        "2024-01-02T00:00:00" := by
  intro h
  have hmem : ([] : List Char) ∈
      saveFileContents initialState "2024-01-01T00:00:00" initialState
        "2024-01-02T00:00:00" := by
    unfold saveFileContents
    refine List.mem_cons_of_mem _ ?_
    refine List.mem_map.mpr ⟨0, ?_, rfl⟩
    simp
  rcases h [] hmem with h1 | h1 <;> exact absurd h1 (by decide)

lemma scrapeRangeGo_two_fetches (f : Oracle) (pps minId maxId : Nat)
    (st : ScrapeState) (page pl : Nat)
    (h1 : (f minId maxId page).length = pps)
    (h2 : (f minId maxId (page + 1)).length < pps)
    (h3 : f minId maxId (page + 1) ≠ []) :
    countFetches (scrapeRangeGo f pps minId maxId st page (pl + 2)).trace = 2 := by
  have hpos : 0 < (f minId maxId (page + 1)).length := List.length_pos.mpr h3
  have hne1 : f minId maxId page ≠ [] := by
    intro hh
    rw [hh] at h1
    simp at h1
    omega
  have hge1 : ¬ (f minId maxId page).length < pps := by omega
  rw [show pl + 2 = (pl + 1) + 1 from rfl,
    scrapeRangeGo_long f pps minId maxId st page (pl + 1) hne1 hge1,
    scrapeRangeGo_short f pps minId maxId (pageStep st (f minId maxId page))
      (page + 1) pl h3 h2]
  simp [countFetches, List.filter]

/-- C5: for a window whose page-1 fetch returns exactly `posts_per_page`
records and whose page-2 fetch returns a non-zero number of records
smaller than `posts_per_page`, `_scrape_id_range` performs exactly 2
fetches and then stops (the short page breaks the loop). -/
theorem window_exhaustion_two_fetches (f : Oracle) (pps minId maxId : Nat)
    (st : ScrapeState)
    (h1 : (f minId maxId 1).length = pps)
    (h2 : (f minId maxId 2).length < pps)
    (h3 : f minId maxId 2 ≠ []) :
    countFetches (scrapeRange f pps minId maxId st).trace = 2 :=
  scrapeRangeGo_two_fetches f pps minId maxId st 1 998 h1 h2 h3

theorem window_exhaustion_two_fetches_witness :
    (((fun _ _ p => if p = 1 then [⟨11, "a"⟩, ⟨12, "b"⟩]
        else if p = 2 then [⟨13, "c"⟩] else []) : Oracle) 11 20 1).length = 2 ∧
    (((fun _ _ p => if p = 1 then [⟨11, "a"⟩, ⟨12, "b"⟩]
        else if p = 2 then [⟨13, "c"⟩] else []) : Oracle) 11 20 2).length < 2 ∧
    ((fun _ _ p => if p = 1 then [⟨11, "a"⟩, ⟨12, "b"⟩]
        else if p = 2 then [⟨13, "c"⟩] else []) : Oracle) 11 20 2 ≠ [] ∧
    countFetches (scrapeRange
      (fun _ _ p => if p = 1 then [⟨11, "a"⟩, ⟨12, "b"⟩]
        else if p = 2 then [⟨13, "c"⟩] else []) 2 11 20 initialState).trace = 2 :=
  ⟨by decide, by decide, by decide,
    window_exhaustion_two_fetches
      (fun _ _ p => if p = 1 then [⟨11, "a"⟩, ⟨12, "b"⟩]
        else if p = 2 then [⟨13, "c"⟩] else []) 2 11 20 initialState
      (by decide) (by decide) (by decide)⟩

lemma scrapeRangeGo_save_split (f : Oracle) (pps minId maxId : Nat) :
    ∀ (pl : Nat) (st : ScrapeState) (page : Nat) (pre : List Ev)
      (st' : ScrapeState) (rest : List Ev),
      (scrapeRangeGo f pps minId maxId st page pl).trace =
          pre ++ Ev.save st' :: rest →
      st'.total_posts_scraped = st.total_posts_scraped + appendedCount pre ∧
      ∃ ps pre0, pre = pre0 ++ [Ev.append ps] := by
  intro pl
  induction pl with
  | zero =>
    intro st page pre st' rest h
    simp only [scrapeRangeGo] at h
    exact absurd h.symm (List.append_ne_nil_of_right_ne_nil pre (List.cons_ne_nil _ _))
  | succ pl ih =>
    intro st page pre st' rest h
    by_cases hp : f minId maxId page = []
    · rw [scrapeRangeGo_empty f pps minId maxId st page pl hp] at h
      match pre, h with
      | [], h => simp at h
      | [e1], h => simp at h
      | e1 :: e2 :: pre2, h => simp at h
    · by_cases hs : (f minId maxId page).length < pps
      · rw [scrapeRangeGo_short f pps minId maxId st page pl hp hs] at h
        match pre, h with
        | [], h => simp at h
        | [e1], h => simp at h
        | [e1, e2], h =>
          simp only [List.cons_append, List.nil_append, List.cons.injEq] at h
          obtain ⟨he1, he2, hsave, -⟩ := h
          have hst : pageStep st (f minId maxId page) = st' := by
            injection hsave
          constructor
          · rw [← hst, pageStep_total, ← he1, ← he2]
            simp [appendedCount]
          · exact ⟨f minId maxId page, [e1], by rw [← he2]; rfl⟩
        | e1 :: e2 :: e3 :: pre3, h =>
          simp only [List.cons_append, List.nil_append, List.cons.injEq] at h
          exact absurd h.2.2.2.symm
            (List.append_ne_nil_of_right_ne_nil pre3 (List.cons_ne_nil _ _))
      · rw [scrapeRangeGo_long f pps minId maxId st page pl hp hs] at h
        match pre, h with
        | [], h => simp at h
        | [e1], h => simp at h
        | [e1, e2], h =>
          simp only [List.cons_append, List.nil_append, List.cons.injEq] at h
          obtain ⟨he1, he2, hsave, -⟩ := h
          have hst : pageStep st (f minId maxId page) = st' := by
            injection hsave
          constructor
          · rw [← hst, pageStep_total, ← he1, ← he2]
            simp [appendedCount]
          · exact ⟨f minId maxId page, [e1], by rw [← he2]; rfl⟩
        | e1 :: e2 :: e3 :: pre3, h =>
          simp only [List.cons_append, List.nil_append, List.cons.injEq] at h
          obtain ⟨he1, he2, he3, htail⟩ := h
          obtain ⟨ihtot, ps, pre0, ihpre⟩ :=
            ih (pageStep st (f minId maxId page)) (page + 1) pre3 st' rest htail
          constructor
          · rw [ihtot, pageStep_total, ← he1, ← he2, ← he3]
            simp only [appendedCount_cons]
            omega
          · exact ⟨ps, e1 :: e2 :: e3 :: pre0, by rw [ihpre]; rfl⟩

/-- C10: in every page iteration of `_scrape_id_range` the page's records
are handed to the sink before the updated progress state is persisted:
every state save in a scanner trace is immediately preceded by a sink
append, and the saved `total_posts_scraped` counts exactly the records
appended before that save — the engine never persists progress counting a
page whose records were not first handed to the sink. -/
theorem append_before_persist (f : Oracle) (pps minId maxId : Nat)
    (st st' : ScrapeState) (pre rest : List Ev)
    (h : (scrapeRange f pps minId maxId st).trace = pre ++ Ev.save st' :: rest) :
    st'.total_posts_scraped = st.total_posts_scraped + appendedCount pre ∧
    ∃ ps pre0, pre = pre0 ++ [Ev.append ps] :=
  scrapeRangeGo_save_split f pps minId maxId maxPages st 1 pre st' rest h

theorem append_before_persist_witness :
    ((scrapeRange (fun _ _ p => if p = 1 then [⟨3, "a"⟩] else []) 2 1 10
        initialState).trace =
      [Ev.fetch 1 10 1, Ev.append [⟨3, "a"⟩]] ++ Ev.save ⟨3, 1, 1⟩ :: []) ∧
    (⟨3, 1, 1⟩ : ScrapeState).total_posts_scraped =
      initialState.total_posts_scraped +
        appendedCount [Ev.fetch 1 10 1, Ev.append [⟨3, "a"⟩]] ∧
    ∃ ps pre0,
      [Ev.fetch 1 10 1, Ev.append [⟨3, "a"⟩]] = pre0 ++ [Ev.append ps] :=
  ⟨by decide,
    append_before_persist (fun _ _ p => if p = 1 then [⟨3, "a"⟩] else []) 2 1 10
      initialState ⟨3, 1, 1⟩ [Ev.fetch 1 10 1, Ev.append [⟨3, "a"⟩]] []
      (by decide)⟩

/-! ### Lemmas about the batch driver -/

lemma scrapeLoopGo_exit (f : Oracle) (pps b maxId cur : Nat)
    (st : ScrapeState) (fuel : Nat) (h : maxId < cur) :
    scrapeLoopGo f pps b maxId cur st fuel = ⟨st, [], []⟩ := by
  cases fuel with
  | zero => rfl
  | succ fuel => simp [scrapeLoopGo, Nat.not_le.mpr h]

lemma scrapeLoopGo_step (f : Oracle) (pps b maxId cur : Nat)
    (st : ScrapeState) (fuel : Nat) (h : cur ≤ maxId) :
    scrapeLoopGo f pps b maxId cur st (fuel + 1) =
      ⟨(scrapeLoopGo f pps b maxId (min (cur + b - 1) maxId + 1)
          { (scrapeRange f pps cur (min (cur + b - 1) maxId) st).state with
            current_batch_start := min (cur + b - 1) maxId + 1 } fuel).state,
        (cur, min (cur + b - 1) maxId) ::
          (scrapeLoopGo f pps b maxId (min (cur + b - 1) maxId + 1)
            { (scrapeRange f pps cur (min (cur + b - 1) maxId) st).state with
              current_batch_start := min (cur + b - 1) maxId + 1 } fuel).windows,
        (scrapeRange f pps cur (min (cur + b - 1) maxId) st).trace ++
          Ev.save { (scrapeRange f pps cur (min (cur + b - 1) maxId) st).state with
            current_batch_start := min (cur + b - 1) maxId + 1 } ::
          (scrapeLoopGo f pps b maxId (min (cur + b - 1) maxId + 1)
            { (scrapeRange f pps cur (min (cur + b - 1) maxId) st).state with
              current_batch_start := min (cur + b - 1) maxId + 1 } fuel).trace⟩ := by
  simp [scrapeLoopGo, h]

lemma cmax_ge_cur (b maxId cur : Nat) (hb : 0 < b) (h : cur ≤ maxId) :
    cur ≤ min (cur + b - 1) maxId := by
  refine Nat.le_min.mpr ⟨by omega, h⟩

lemma scrapeLoopGo_final_cbs (f : Oracle) (pps b maxId : Nat) (hb : 0 < b) :
    ∀ (fuel cur : Nat) (st : ScrapeState),
      maxId + 1 - cur ≤ fuel → st.current_batch_start = cur →
      cur ≤ (scrapeLoopGo f pps b maxId cur st fuel).state.current_batch_start ∧
      (cur ≤ maxId →
        maxId < (scrapeLoopGo f pps b maxId cur st fuel).state.current_batch_start) := by
  intro fuel
  induction fuel with
  | zero =>
    intro cur st hfuel hinv
    simp only [scrapeLoopGo]
    omega
  | succ fuel ih =>
    intro cur st hfuel hinv
    by_cases h : cur ≤ maxId
    · rw [scrapeLoopGo_step f pps b maxId cur st fuel h]
      dsimp only
      have hge := cmax_ge_cur b maxId cur hb h
      have hle : min (cur + b - 1) maxId ≤ maxId := Nat.min_le_right _ _
      have := ih (min (cur + b - 1) maxId + 1)
        { (scrapeRange f pps cur (min (cur + b - 1) maxId) st).state with
          current_batch_start := min (cur + b - 1) maxId + 1 }
        (by omega) rfl
      dsimp only at this
      constructor
      · omega
      · intro
        rcases Nat.lt_or_ge maxId (min (cur + b - 1) maxId + 1) with hc | hc
        · omega
        · exact this.2 (by omega)
    · rw [scrapeLoopGo_exit f pps b maxId cur st (fuel + 1) (by omega)]
      dsimp only
      omega

lemma saveCbsList_append (l1 l2 : List Ev) :
    saveCbsList (l1 ++ l2) = saveCbsList l1 ++ saveCbsList l2 :=
  List.filterMap_append ..

lemma saveCbsList_save_cons (s : ScrapeState) (tr : List Ev) :
    saveCbsList (Ev.save s :: tr) = s.current_batch_start :: saveCbsList tr := by
  simp [saveCbsList]

lemma scrapeLoopGo_windows_elem (f : Oracle) (pps b maxId : Nat) :
    ∀ (fuel cur : Nat) (st : ScrapeState),
      ∀ w ∈ (scrapeLoopGo f pps b maxId cur st fuel).windows,
        w.1 ≤ maxId ∧ w.2 = min (w.1 + b - 1) maxId := by
  intro fuel
  induction fuel with
  | zero => intro cur st w hw; simp [scrapeLoopGo] at hw
  | succ fuel ih =>
    intro cur st w hw
    by_cases h : cur ≤ maxId
    · rw [scrapeLoopGo_step f pps b maxId cur st fuel h] at hw
      dsimp only at hw
      rcases List.mem_cons.mp hw with h1 | h1
      · subst h1; exact ⟨h, rfl⟩
      · exact ih _ _ w h1
    · rw [scrapeLoopGo_exit f pps b maxId cur st (fuel + 1) (by omega)] at hw
      simp at hw

lemma scrapeLoopGo_windows_head (f : Oracle) (pps b maxId : Nat)
    (fuel cur : Nat) (st : ScrapeState) :
    (scrapeLoopGo f pps b maxId cur st fuel).windows.head? =
      if 0 < fuel ∧ cur ≤ maxId then some (cur, min (cur + b - 1) maxId)
      else none := by
  cases fuel with
  | zero => simp [scrapeLoopGo]
  | succ fuel =>
    by_cases h : cur ≤ maxId
    · rw [scrapeLoopGo_step f pps b maxId cur st fuel h]
      simp [h]
    · rw [scrapeLoopGo_exit f pps b maxId cur st (fuel + 1) (by omega)]
      simp [h]

lemma scrapeLoopGo_windows_chain (f : Oracle) (pps b maxId : Nat) :
    ∀ (fuel cur : Nat) (st : ScrapeState),
      List.Chain' (fun w w' => w'.1 = w.2 + 1)
        (scrapeLoopGo f pps b maxId cur st fuel).windows := by
  intro fuel
  induction fuel with
  | zero => intro cur st; simp [scrapeLoopGo]
  | succ fuel ih =>
    intro cur st
    by_cases h : cur ≤ maxId
    · rw [scrapeLoopGo_step f pps b maxId cur st fuel h]
      dsimp only
      refine List.chain'_cons'.mpr ⟨?_, ih _ _⟩
      intro y hy
      rw [scrapeLoopGo_windows_head] at hy
      split at hy
      · simp only [Option.mem_def, Option.some.injEq] at hy
        subst hy
        rfl
      · simp at hy
    · rw [scrapeLoopGo_exit f pps b maxId cur st (fuel + 1) (by omega)]
      simp

lemma scrapeLoopGo_windows_last (f : Oracle) (pps b maxId : Nat) :
    ∀ (fuel cur : Nat) (st : ScrapeState), st.current_batch_start = cur →
      ((scrapeLoopGo f pps b maxId cur st fuel).windows = [] →
        (scrapeLoopGo f pps b maxId cur st fuel).state = st) ∧
      (∀ w, (scrapeLoopGo f pps b maxId cur st fuel).windows.getLast? = some w →
        w.2 + 1 =
          (scrapeLoopGo f pps b maxId cur st fuel).state.current_batch_start) := by
  intro fuel
  induction fuel with
  | zero =>
    intro cur st hinv
    constructor
    · intro _
      rfl
    · intro w hw
      simp [scrapeLoopGo] at hw
  | succ fuel ih =>
    intro cur st hinv
    by_cases h : cur ≤ maxId
    · rw [scrapeLoopGo_step f pps b maxId cur st fuel h]
      dsimp only
      have ihx := ih (min (cur + b - 1) maxId + 1)
        { (scrapeRange f pps cur (min (cur + b - 1) maxId) st).state with
          current_batch_start := min (cur + b - 1) maxId + 1 } rfl
      constructor
      · intro hcontra
        exact absurd hcontra (List.cons_ne_nil _ _)
      · intro w hw
        rcases hrest : (scrapeLoopGo f pps b maxId (min (cur + b - 1) maxId + 1)
            { (scrapeRange f pps cur (min (cur + b - 1) maxId) st).state with
              current_batch_start := min (cur + b - 1) maxId + 1 }
            fuel).windows with - | ⟨w0, ws⟩
        · rw [hrest] at hw
          simp only [List.getLast?_singleton, Option.some.injEq] at hw
          have hstate := ihx.1 hrest
          rw [hstate, ← hw]
        · rw [hrest, List.getLast?_cons_cons] at hw
          exact ihx.2 w (by rw [hrest]; exact hw)
    · rw [scrapeLoopGo_exit f pps b maxId cur st (fuel + 1) (by omega)]
      constructor
      · intro _
        rfl
      · intro w hw
        simp at hw

lemma pairwise_le_of_forall_eq (l : List Nat) (c : Nat)
    (h : ∀ x ∈ l, x = c) : List.Pairwise (fun a b => a ≤ b) l := by
  induction l with
  | nil => exact List.Pairwise.nil
  | cons a l ih =>
    refine List.Pairwise.cons ?_ (ih fun x hx => h x (List.mem_cons_of_mem _ hx))
    intro y hy
    rw [h a (List.mem_cons_self _ _), h y (List.mem_cons_of_mem _ hy)]

lemma scrapeLoopGo_saves_mono (f : Oracle) (pps b maxId : Nat) (hb : 0 < b) :
    ∀ (fuel cur : Nat) (st : ScrapeState), st.current_batch_start = cur →
      (∀ x ∈ saveCbsList (scrapeLoopGo f pps b maxId cur st fuel).trace,
        cur ≤ x) ∧
      List.Pairwise (fun a b => a ≤ b)
        (saveCbsList (scrapeLoopGo f pps b maxId cur st fuel).trace) := by
  intro fuel
  induction fuel with
  | zero =>
    intro cur st hinv
    constructor
    · intro x hx
      simp [scrapeLoopGo, saveCbsList] at hx
    · simp [scrapeLoopGo, saveCbsList]
  | succ fuel ih =>
    intro cur st hinv
    by_cases h : cur ≤ maxId
    · rw [scrapeLoopGo_step f pps b maxId cur st fuel h]
      dsimp only
      have hge := cmax_ge_cur b maxId cur hb h
      have hscansave : ∀ x ∈ saveCbsList
          (scrapeRange f pps cur (min (cur + b - 1) maxId) st).trace, x = cur := by
        intro x hx
        have := scrapeRangeGo_saves_cbs f pps cur (min (cur + b - 1) maxId)
          maxPages st 1 x hx
        rw [this, hinv]
      have ihx := ih (min (cur + b - 1) maxId + 1)
        { (scrapeRange f pps cur (min (cur + b - 1) maxId) st).state with
          current_batch_start := min (cur + b - 1) maxId + 1 } rfl
      rw [saveCbsList_append, saveCbsList_save_cons]
      dsimp only
      constructor
      · intro x hx
        rcases List.mem_append.mp hx with h1 | h1
        · rw [hscansave x h1]
        · rcases List.mem_cons.mp h1 with h2 | h2
          · omega
          · have := ihx.1 x h2
            omega
      · refine List.pairwise_append.mpr ⟨pairwise_le_of_forall_eq _ cur hscansave,
          List.Pairwise.cons (fun y hy => ihx.1 y hy) ihx.2, ?_⟩
        intro x hx y hy
        rw [hscansave x hx]
        rcases List.mem_cons.mp hy with h2 | h2
        · omega
        · have := ihx.1 y h2
          omega
    · rw [scrapeLoopGo_exit f pps b maxId cur st (fuel + 1) (by omega)]
      constructor
      · intro x hx
        simp [saveCbsList] at hx
      · simp [saveCbsList]

lemma scrapeAll_some (f : Oracle) (pps b maxId : Nat) (st : ScrapeState) :
    scrapeAll f pps b (some maxId) st =
      scrapeLoopGo f pps b maxId st.current_batch_start st
        (maxId + 1 - st.current_batch_start) := rfl

lemma scrapeAll_final_cbs (f : Oracle) (pps b maxId : Nat) (st : ScrapeState)
    (hb : 0 < b) :
    maxId < (scrapeAll f pps b (some maxId) st).state.current_batch_start := by
  rw [scrapeAll_some]
  by_cases h : st.current_batch_start ≤ maxId
  · exact (scrapeLoopGo_final_cbs f pps b maxId hb _ _ st (le_refl _) rfl).2 h
  · have hx : maxId < st.current_batch_start := by omega
    rw [scrapeLoopGo_exit f pps b maxId st.current_batch_start st _ hx]
    exact hx

lemma scrapeAll_cbs_mono (f : Oracle) (pps b : Nat) (mo : Option Nat)
    (st : ScrapeState) (hb : 0 < b) :
    st.current_batch_start ≤
      (scrapeAll f pps b mo st).state.current_batch_start := by
  cases mo with
  | none => exact le_refl _
  | some maxId =>
    rw [scrapeAll_some]
    exact (scrapeLoopGo_final_cbs f pps b maxId hb _ _ st (le_refl _) rfl).1

lemma runSeq_cbs_mono (pps b : Nat) (hb : 0 < b) :
    ∀ (runs : List (Oracle × Option Nat)) (st : ScrapeState),
      st.current_batch_start ≤ (runSeq pps b st runs).current_batch_start := by
  intro runs
  induction runs with
  | nil => intro st; exact le_refl _
  | cons r rs ih =>
    intro st
    obtain ⟨fr, hr⟩ := r
    have h1 := scrapeAll_cbs_mono fr pps b hr st hb
    have h2 := ih (scrapeAll fr pps b hr st).state
    simp only [runSeq]
    omega

/-! ### Claim theorems about the batch driver -/

/-- C2: for every starting checkpoint and upstream maximum ID (and positive
batch size, the only configuration under which the Python loop
terminates), `scrape_all` partitions the ID space into consecutive windows
`[w.1, min (w.1 + b - 1) maxId]` starting at the checkpoint, sets the
checkpoint to `window_end + 1` after each window, terminates exactly when
the window start exceeds `maxId`, and on checkpoint 1, max ID 250, batch
size 100 processes windows `[1,100]`, `[101,200]`, `[201,250]` leaving the
checkpoint at 251. -/
theorem batch_windows_partition (f : Oracle) (pps b maxId : Nat)
    (st : ScrapeState) (hb : 0 < b) :
    (∀ w ∈ (scrapeAll f pps b (some maxId) st).windows,
        w.1 ≤ maxId ∧ w.2 = min (w.1 + b - 1) maxId) ∧
    List.Chain' (fun w w' => w'.1 = w.2 + 1)
      (scrapeAll f pps b (some maxId) st).windows ∧
    (st.current_batch_start ≤ maxId →
      (scrapeAll f pps b (some maxId) st).windows.head? =
        some (st.current_batch_start,
          min (st.current_batch_start + b - 1) maxId)) ∧
    (∀ w, (scrapeAll f pps b (some maxId) st).windows.getLast? = some w →
      w.2 + 1 =
        (scrapeAll f pps b (some maxId) st).state.current_batch_start) ∧
    maxId < (scrapeAll f pps b (some maxId) st).state.current_batch_start ∧
    (maxId < st.current_batch_start →
      scrapeAll f pps b (some maxId) st = ⟨st, [], []⟩) ∧
    (scrapeAll (fun _ _ _ => []) 50 100 (some 250) initialState).windows =
      [(1, 100), (101, 200), (201, 250)] ∧
    (scrapeAll (fun _ _ _ => []) 50 100 (some 250)
      initialState).state.current_batch_start = 251 := by
  refine ⟨?_, ?_, ?_, ?_, scrapeAll_final_cbs f pps b maxId st hb, ?_, by decide,
    by decide⟩
  · rw [scrapeAll_some]
    exact scrapeLoopGo_windows_elem f pps b maxId _ _ st
  · rw [scrapeAll_some]
    exact scrapeLoopGo_windows_chain f pps b maxId _ _ st
  · intro h
    rw [scrapeAll_some, scrapeLoopGo_windows_head]
    rw [if_pos ⟨by omega, h⟩]
  · rw [scrapeAll_some]
    exact (scrapeLoopGo_windows_last f pps b maxId _ _ st rfl).2
  · intro h
    rw [scrapeAll_some]
    exact scrapeLoopGo_exit f pps b maxId _ st _ h

theorem batch_windows_partition_witness :
    0 < 100 ∧
    (scrapeAll (fun _ _ _ => []) 50 100 (some 250) initialState).windows =
      [(1, 100), (101, 200), (201, 250)] ∧
    (scrapeAll (fun _ _ _ => []) 50 100 (some 250)
      initialState).state.current_batch_start = 251 :=
  ⟨by decide,
    (batch_windows_partition (fun _ _ _ => []) 50 100 250 initialState
      (by decide)).2.2.2.2.2.2.1,
    (batch_windows_partition (fun _ _ _ => []) 50 100 250 initialState
      (by decide)).2.2.2.2.2.2.2⟩

/-- C3: running `scrape_all` again right after a completed run, with the
upstream maximum ID unchanged, is a no-op: the batch loop condition is
immediately false, so the second run performs zero fetches (its whole
event trace is empty — the only upstream interaction of the second call is
the max-ID probe of step 1, which the batch loop does not count among its
window fetches) and leaves the state exactly as the first run left it. -/
theorem second_run_no_fetches (f g : Oracle) (pps b maxId : Nat)
    (st : ScrapeState) (hb : 0 < b) :
    scrapeAll g pps b (some maxId) (scrapeAll f pps b (some maxId) st).state =
      ⟨(scrapeAll f pps b (some maxId) st).state, [], []⟩ ∧
    countFetches (scrapeAll g pps b (some maxId)
      (scrapeAll f pps b (some maxId) st).state).trace = 0 := by
  have hcbs := scrapeAll_final_cbs f pps b maxId st hb
  have hz : maxId + 1 -
      (scrapeAll f pps b (some maxId) st).state.current_batch_start = 0 := by
    omega
  constructor
  · rw [scrapeAll_some, hz]
    rfl
  · rw [scrapeAll_some, hz]
    rfl

theorem second_run_no_fetches_witness :
    0 < 100 ∧
    scrapeAll (fun _ _ _ => []) 50 100 (some 250)
        (scrapeAll (fun _ _ _ => []) 50 100 (some 250) initialState).state =
      ⟨(scrapeAll (fun _ _ _ => []) 50 100 (some 250) initialState).state,
        [], []⟩ :=
  ⟨by decide,
    (second_run_no_fetches (fun _ _ _ => []) (fun _ _ _ => []) 50 100 250
      initialState (by decide)).1⟩

/-- C8: the checkpoint `current_batch_start` never decreases: it is
non-decreasing over a single run (every saved state carries a checkpoint
at least the starting one, and the sequence of saved checkpoints is
sorted) and across any sequence of runs over the same persisted state. -/
theorem checkpoint_monotone (f : Oracle) (pps b : Nat) (mo : Option Nat)
    (st : ScrapeState) (runs : List (Oracle × Option Nat)) (hb : 0 < b) :
    st.current_batch_start ≤
      (scrapeAll f pps b mo st).state.current_batch_start ∧
    (∀ x ∈ saveCbsList (scrapeAll f pps b mo st).trace,
      st.current_batch_start ≤ x) ∧
    List.Pairwise (fun x y => x ≤ y)
      (saveCbsList (scrapeAll f pps b mo st).trace) ∧
    st.current_batch_start ≤ (runSeq pps b st runs).current_batch_start := by
  refine ⟨scrapeAll_cbs_mono f pps b mo st hb, ?_, ?_,
    runSeq_cbs_mono pps b hb runs st⟩
  · cases mo with
    | none => intro x hx; simp [scrapeAll, saveCbsList] at hx
    | some maxId =>
      rw [scrapeAll_some]
      exact (scrapeLoopGo_saves_mono f pps b maxId hb _ _ st rfl).1
  · cases mo with
    | none => simp [scrapeAll, saveCbsList]
    | some maxId =>
      rw [scrapeAll_some]
      exact (scrapeLoopGo_saves_mono f pps b maxId hb _ _ st rfl).2

theorem checkpoint_monotone_witness :
    0 < 100 ∧
    initialState.current_batch_start ≤
      (runSeq 50 100 initialState
        [(fun _ _ _ => [], some 250),
          (fun _ _ _ => [], some 250)]).current_batch_start :=
  ⟨by decide,
    (checkpoint_monotone (fun _ _ _ => []) 50 100 (some 250) initialState
      [(fun _ _ _ => [], some 250), (fun _ _ _ => [], some 250)]
      (by decide)).2.2.2⟩

/-! ### Claim theorems about the record sink -/

lemma appendAll_eq (batches : List (List Post)) :
    ∀ file, appendAll file batches = file ++ batches.flatten := by
  induction batches with
  | nil => intro file; simp [appendAll]
  | cons bt rest ih =>
    intro file
    calc appendAll file (bt :: rest) = appendAll (file ++ bt) rest := rfl
      _ = (file ++ bt) ++ rest.flatten := ih (file ++ bt)
      _ = file ++ (bt :: rest).flatten := by simp

/-- C7: after N successful `_append_posts_to_file` calls totaling M
records, the output file holds exactly M lines (one JSON-serialized record
per line), in the order the records were passed in; the existing content
is preserved unchanged as the leading segment of the file (the file is
opened in append mode and never rewritten); and if the appended records
are in non-decreasing id order, the file is in non-decreasing id order. -/
theorem sink_append_only (batches : List (List Post)) (file : List Post) :
    appendAll [] batches = batches.flatten ∧
    (appendAll [] batches).length = (batches.map List.length).sum ∧
    (∃ tail, appendAll file batches = file ++ tail) ∧
    (idsNondecreasing batches.flatten →
      idsNondecreasing (appendAll [] batches)) := by
  refine ⟨by simpa using appendAll_eq batches [], ?_,
    ⟨batches.flatten, appendAll_eq batches file⟩, ?_⟩
  · rw [appendAll_eq batches []]
    simp [List.length_flatten]
  · intro h
    rwa [appendAll_eq batches [], List.nil_append]

theorem sink_append_only_witness :
    appendAll [] [[⟨1, "a"⟩], [⟨2, "b"⟩, ⟨3, "c"⟩]] =
      [⟨1, "a"⟩, ⟨2, "b"⟩, ⟨3, "c"⟩] ∧
    (appendAll [] [[⟨1, "a"⟩], [⟨2, "b"⟩, ⟨3, "c"⟩]]).length = 3 ∧
    ∃ tail, appendAll [⟨0, "z"⟩] [[⟨1, "a"⟩], [⟨2, "b"⟩, ⟨3, "c"⟩]] =
      [⟨0, "z"⟩] ++ tail :=
  ⟨(sink_append_only [[⟨1, "a"⟩], [⟨2, "b"⟩, ⟨3, "c"⟩]] [⟨0, "z"⟩]).1,
    (sink_append_only [[⟨1, "a"⟩], [⟨2, "b"⟩, ⟨3, "c"⟩]] [⟨0, "z"⟩]).2.1,
    (sink_append_only [[⟨1, "a"⟩], [⟨2, "b"⟩, ⟨3, "c"⟩]] [⟨0, "z"⟩]).2.2.1⟩
